import Mathlib

/-!
Verification of the mutex-guarded shared-state wrappers of
`thread-safety-patterns-masterclass.js` (classes `ThreadSafeCounter`,
`ThreadSafeCache`, `ThreadSafeInventory`, `ThreadSafeOperation`).

Modelling choices, shared by every definition below:

* Each class guards its state with an `AsyncMutex`; inside a critical
  section the JavaScript code never `await`s, so on the Node.js event loop
  every critical section runs atomically and a concurrent execution is an
  interleaving of whole critical sections.  We therefore embed each method
  as a pure state-transition function (explicit state passing), and model
  concurrency as a scheduler choosing the admission order of the critical
  sections (`CounterSys` below).
* A JavaScript `Map` is modelled as an insertion-ordered association list:
  `set` overwrites in place or appends, `get` returns the first binding.
* JavaScript values stored in the cache are modelled by `JSValue`, which
  includes `undef` (the value `undefined`), because `Map.prototype.get`
  returns `undefined` both for an absent key and for a key whose stored
  value is `undefined`.
* Numbers held by the inventory are modelled as rationals (exact
  arithmetic on JavaScript numbers away from overflow and special values);
  the counter, only ever incremented by one, is an integer.
* A thrown JavaScript error is `Except.error`; `throw error` re-raising
  the caught object is `Except.error` carrying the same value.
-/

/-- A JavaScript runtime value, as far as the cache needs one.  `undef` is
the value `undefined`. -/
inductive JSValue
  | undef
  | null
  | num (n : Int)
  | str (s : String)
  | bool (b : Bool)
  deriving DecidableEq, Repr

/-- `Map.prototype.get`: the value of the first binding of `k`, if any. -/
def mapGet {α : Type} (m : List (String × α)) (k : String) : Option α :=
  match m with
  | [] => none
  | (k', v) :: rest => if k' = k then some v else mapGet rest k

/-- `Map.prototype.set`: overwrite the binding of `k` in place, or append
a new binding at the end (JavaScript `Map` keeps insertion order). -/
def mapSet {α : Type} (m : List (String × α)) (k : String) (v : α) :
    List (String × α) :=
  match m with
  | [] => [(k, v)]
  | (k', v') :: rest =>
      if k' = k then (k, v) :: rest else (k', v') :: mapSet rest k v

theorem mapGet_mapSet {α : Type} (m : List (String × α)) (k k' : String)
    (v : α) :
    mapGet (mapSet m k v) k' = if k = k' then some v else mapGet m k' := by
  induction m with
  | nil =>
      by_cases h : k = k' <;> simp [mapSet, mapGet, h]
  | cons p rest ih =>
      obtain ⟨k₀, v₀⟩ := p
      by_cases h₀ : k₀ = k
      · subst h₀
        by_cases h : k₀ = k' <;> simp [mapSet, mapGet, h]
      · by_cases h : k₀ = k'
        · subst h
          have hk : ¬k = k₀ := fun hh => h₀ hh.symm
          simp [mapSet, mapGet, h₀, hk]
        · simp [mapSet, mapGet, h₀, h, ih]

namespace ThreadSafeCounter

/-- `increment()`: under the mutex, `this.counter += 1; return this.counter`.
Input is the counter state; output is (returned value, new counter state). -/
def increment (counter : Int) : Int × Int :=
  let counter' := counter + 1
  (counter', counter')

/-- `getValue()`: under the mutex, `return this.counter`.  Output is
(returned value, counter state after the call). -/
def getValue (counter : Int) : Int × Int :=
  (counter, counter)

end ThreadSafeCounter

namespace ThreadSafeCache

/-- The private `#cache` map: keys to JavaScript values. -/
abbrev CacheMap := List (String × JSValue)

/-- `set(key, value)`: under the mutex, `this.#cache.set(key, value)`. -/
def set (m : CacheMap) (key : String) (value : JSValue) : CacheMap :=
  mapSet m key value

/-- `get(key)`: under the mutex, `return this.#cache.get(key)`.
`Map.prototype.get` yields `undefined` when the key is absent.  Output is
(returned value, cache state after the call). -/
def get (m : CacheMap) (key : String) : JSValue × CacheMap :=
  ((mapGet m key).getD JSValue.undef, m)

end ThreadSafeCache

namespace ThreadSafeInventory

/-- The `inventory` map: product ids to stock numbers. -/
abbrev Inv := List (String × Rat)

/-- `initializeProduct(productId, initialStock)`: under the mutex,
`this.inventory.set(productId, initialStock)` — no validation at all. -/
def initializeProduct (inv : Inv) (productId : String) (initialStock : Rat) :
    Inv :=
  mapSet inv productId initialStock

/-- `reserveStock(productId, quantity)`: under the mutex, read
`this.inventory.get(productId) ?? 0`; throw `Error('Insufficient stock')`
when `currentStock < quantity`; otherwise set `currentStock - quantity`
and return `true`.  On a throw the inventory is unchanged (the `set` was
never reached), so the error branch carries no new state. -/
def reserveStock (inv : Inv) (productId : String) (quantity : Rat) :
    Except String (Bool × Inv) :=
  let currentStock := (mapGet inv productId).getD 0
  if currentStock < quantity then
    Except.error "Insufficient stock"
  else
    Except.ok (true, mapSet inv productId (currentStock - quantity))

/-- `getStock(productId)`: under the mutex,
`return this.inventory.get(productId) ?? 0`.  Output is (returned value,
inventory state after the call). -/
def getStock (inv : Inv) (productId : String) : Rat × Inv :=
  ((mapGet inv productId).getD 0, inv)

/-- The stock the class reports for a product (`get(...) ?? 0`). -/
def stockOf (inv : Inv) (productId : String) : Rat :=
  (mapGet inv productId).getD 0

/-- One call against a `ThreadSafeInventory` (the three public methods). -/
inductive InvOp
  | init (productId : String) (stock : Rat)
  | reserve (productId : String) (quantity : Rat)
  | query (productId : String)
  deriving DecidableEq, Repr

/-- The inventory state after one call.  A `reserveStock` that throws
leaves the state as it was (the `set` is never reached); `getStock` only
reads. -/
def applyOp (inv : Inv) : InvOp → Inv
  | InvOp.init p s => initializeProduct inv p s
  | InvOp.reserve p q =>
      match reserveStock inv p q with
      | Except.ok (_, inv') => inv'
      | Except.error _ => inv
  | InvOp.query p => (getStock inv p).2

/-- The inventory state after a serialized sequence of calls (the mutex
admits the critical sections one after another). -/
def applyOps (inv : Inv) : List InvOp → Inv
  | [] => inv
  | op :: rest => applyOps (applyOp inv op) rest

/-- Whether an operation initializes a product with nonnegative stock
(trivially true of the other operations). -/
def initStockNonneg : InvOp → Bool
  | InvOp.init _ s => 0 ≤ s
  | _ => true

/-- Run a sequence of `reserveStock` calls for one product; returns the
final inventory and the sum of the successfully reserved quantities. -/
def reserveSeq (inv : Inv) (p : String) : List Rat → Inv × Rat
  | [] => (inv, 0)
  | q :: qs =>
      match reserveStock inv p q with
      | Except.ok (_, inv') =>
          let r := reserveSeq inv' p qs
          (r.1, q + r.2)
      | Except.error _ => reserveSeq inv p qs

end ThreadSafeInventory

theorem mapGet_mapSet_same {α : Type} (m : List (String × α)) (k : String)
    (v : α) : mapGet (mapSet m k v) k = some v := by
  rw [mapGet_mapSet, if_pos rfl]

theorem mem_mapSet {α : Type} (m : List (String × α)) (k : String) (v : α)
    (pv : String × α) (h : pv ∈ mapSet m k v) : pv = (k, v) ∨ pv ∈ m := by
  induction m with
  | nil => simpa [mapSet] using h
  | cons hd rest ih =>
      obtain ⟨k₀, v₀⟩ := hd
      by_cases h₀ : k₀ = k
      · rw [mapSet, if_pos h₀] at h
        rcases List.mem_cons.mp h with h₁ | h₁
        · exact Or.inl h₁
        · exact Or.inr (List.mem_cons.mpr (Or.inr h₁))
      · rw [mapSet, if_neg h₀] at h
        rcases List.mem_cons.mp h with h₁ | h₁
        · exact Or.inr (List.mem_cons.mpr (Or.inl h₁))
        · rcases ih h₁ with h₂ | h₂
          · exact Or.inl h₂
          · exact Or.inr (List.mem_cons.mpr (Or.inr h₂))

namespace ThreadSafeOperation

/-- `execute(operation)`: acquire the mutex (possible only when it is
free); run the caller-supplied operation; `catch (error)` logs and then
`throw error` re-raises the very same error object; `finally` releases
the mutex on every path.

The operation is represented by its outcome `op : Except ε α`.  The input
`locked` is the mutex state of this store; `none` means the caller would
block forever waiting for a mutex that is never released, `some (r, l)`
means the call returned outcome `r` leaving the mutex in state `l`. -/
def execute {ε α : Type} (locked : Bool) (op : Except ε α) :
    Option (Except ε α × Bool) :=
  if locked then
    none
  else
    some
      (match op with
       | Except.ok a => Except.ok a
       | Except.error e => Except.error e,
       false)

end ThreadSafeOperation

namespace ThreadSafeCounter

/-- What one of the N concurrent `increment()` tasks is doing:
still waiting on `mutex.acquire()`, admitted (its `acquire` promise
resolved, its critical section not yet run), or finished. -/
inductive TaskState
  | waiting
  | admitted
  | finished
  deriving DecidableEq, Repr

/-- A `ThreadSafeCounter` together with `n` concurrent `increment()`
tasks: the counter, whether the mutex is held, and each task's state. -/
structure CounterSys (n : Nat) where
  counter : Int
  lockHeld : Bool
  tasks : Fin n → TaskState

/-- One scheduler step giving control to task `t`.  A waiting task can
acquire the mutex only when it is free; an admitted task runs its whole
critical section (`this.counter += 1` contains no `await`, so on the
event loop it is atomic) and then releases the mutex; a finished task
does nothing.  Steps that cannot fire leave the system unchanged. -/
def counterStep {n : Nat} (s : CounterSys n) (t : Fin n) : CounterSys n :=
  match s.tasks t with
  | TaskState.waiting =>
      if s.lockHeld then s
      else
        { s with lockHeld := true,
                 tasks := Function.update s.tasks t TaskState.admitted }
  | TaskState.admitted =>
      { counter := (increment s.counter).2,
        lockHeld := false,
        tasks := Function.update s.tasks t TaskState.finished }
  | TaskState.finished => s

/-- Run a whole schedule (an arbitrary interleaving chosen by the
scheduler) from a system state. -/
def counterRun {n : Nat} (s : CounterSys n) : List (Fin n) → CounterSys n
  | [] => s
  | t :: rest => counterRun (counterStep s t) rest

/-- A fresh `ThreadSafeCounter` (counter 0, mutex free) with all `n`
`increment()` calls issued and waiting. -/
def counterInit (n : Nat) : CounterSys n :=
  { counter := 0, lockHeld := false, tasks := fun _ => TaskState.waiting }

end ThreadSafeCounter

/-! ## Theorems about the claims -/

/-- C6: for every counter state n, `increment()` stores n + 1 as the new
counter state and returns the new value n + 1. -/
theorem ThreadSafeCounter.increment_adds_one_and_returns_it (n : Int) :
    (ThreadSafeCounter.increment n).1 = n + 1
    ∧ (ThreadSafeCounter.increment n).2 = n + 1 :=
  ⟨rfl, rfl⟩

/-- C7: the read-only operations `ThreadSafeCounter.getValue`,
`ThreadSafeCache.get` and `ThreadSafeInventory.getStock` return their
result (counter value, cached value or `undefined`, stock or 0) and leave
the store's state exactly unchanged. -/
theorem readOnly_operations_leave_state_unchanged (c : Int)
    (m : ThreadSafeCache.CacheMap) (inv : ThreadSafeInventory.Inv)
    (k p : String) :
    ThreadSafeCounter.getValue c = (c, c)
    ∧ ThreadSafeCache.get m k = ((mapGet m k).getD JSValue.undef, m)
    ∧ ThreadSafeInventory.getStock inv p
        = (ThreadSafeInventory.stockOf inv p, inv) :=
  ⟨rfl, rfl, rfl⟩

/-- C9: `initializeProduct(productId, initialStock)` performs no
validation: for every rational `initialStock` (negative and non-integer
values included) and every prior inventory, it unconditionally sets the
stock of `productId` to `initialStock`, overwriting any existing stock,
and touches no other product. -/
theorem ThreadSafeInventory.initializeProduct_is_unconditional_set
    (inv : ThreadSafeInventory.Inv) (p : String) (s : Rat) :
    ThreadSafeInventory.initializeProduct inv p s = mapSet inv p s
    ∧ mapGet (ThreadSafeInventory.initializeProduct inv p s) p = some s
    ∧ ∀ p', p' ≠ p →
        mapGet (ThreadSafeInventory.initializeProduct inv p s) p'
          = mapGet inv p' := by
  refine ⟨rfl, ?_, ?_⟩
  · rw [ThreadSafeInventory.initializeProduct, mapGet_mapSet_same]
  · intro p' hp
    rw [ThreadSafeInventory.initializeProduct, mapGet_mapSet,
      if_neg fun hh => hp hh.symm]

/-- C2: `reserveStock(productId, qty)` reads the current stock (absent
product ⇒ 0); when the stock is short of qty it fails with the
insufficient-stock error and the inventory is unchanged; otherwise it
decrements the stock of productId by qty and returns `true`. -/
theorem ThreadSafeInventory.reserveStock_reads_checks_then_decrements
    (inv : ThreadSafeInventory.Inv) (p : String) (q : Rat) :
    (ThreadSafeInventory.stockOf inv p < q →
       ThreadSafeInventory.reserveStock inv p q
           = Except.error "Insufficient stock"
       ∧ ThreadSafeInventory.applyOp inv (ThreadSafeInventory.InvOp.reserve p q)
           = inv)
    ∧ (q ≤ ThreadSafeInventory.stockOf inv p →
       ThreadSafeInventory.reserveStock inv p q
           = Except.ok (true,
               mapSet inv p (ThreadSafeInventory.stockOf inv p - q))
       ∧ ThreadSafeInventory.stockOf
           (ThreadSafeInventory.applyOp inv
             (ThreadSafeInventory.InvOp.reserve p q)) p
           = ThreadSafeInventory.stockOf inv p - q) := by
  constructor
  · intro h
    have he : ThreadSafeInventory.reserveStock inv p q
        = Except.error "Insufficient stock" := by
      rw [ThreadSafeInventory.reserveStock]
      rw [ThreadSafeInventory.stockOf] at h
      exact if_pos h
    refine ⟨he, ?_⟩
    simp only [ThreadSafeInventory.applyOp, he]
  · intro h
    have hn : ¬ (mapGet inv p).getD 0 < q := by
      rw [ThreadSafeInventory.stockOf] at h
      exact not_lt.mpr h
    have hok : ThreadSafeInventory.reserveStock inv p q
        = Except.ok (true,
            mapSet inv p (ThreadSafeInventory.stockOf inv p - q)) := by
      rw [ThreadSafeInventory.reserveStock, ThreadSafeInventory.stockOf]
      exact if_neg hn
    refine ⟨hok, ?_⟩
    simp only [ThreadSafeInventory.applyOp, hok]
    rw [ThreadSafeInventory.stockOf, mapGet_mapSet_same]
    rfl

/-- C8: against an inventory initialized with stock PROD-1 ↦ 3, two
reservations of 2 units each (the two calls are identical, so both
admission orders run the same computation): the one admitted first
succeeds and leaves stock 1, the one admitted second fails with the
insufficient-stock error, and the final stock is 1. -/
theorem ThreadSafeInventory.two_of_two_against_three_one_succeeds :
    ThreadSafeInventory.reserveStock
        (ThreadSafeInventory.initializeProduct [] "PROD-1" 3) "PROD-1" 2
      = Except.ok (true, [("PROD-1", 1)])
    ∧ ThreadSafeInventory.reserveStock [("PROD-1", 1)] "PROD-1" 2
      = Except.error "Insufficient stock"
    ∧ ThreadSafeInventory.stockOf [("PROD-1", 1)] "PROD-1" = 1 := by
  refine ⟨?_, ?_, ?_⟩ <;>
    norm_num [ThreadSafeInventory.reserveStock,
      ThreadSafeInventory.initializeProduct, ThreadSafeInventory.stockOf,
      mapSet, mapGet]

/-- C10: a zero-quantity reservation against a product absent from the
inventory succeeds and inserts a binding of that product to stock 0 —
the state is changed by the insertion. -/
theorem ThreadSafeInventory.reserveStock_zero_on_absent_inserts_key
    (inv : ThreadSafeInventory.Inv) (p : String)
    (habs : mapGet inv p = none) :
    ThreadSafeInventory.reserveStock inv p 0
      = Except.ok (true, mapSet inv p 0)
    ∧ mapGet (mapSet inv p 0) p = some 0
    ∧ mapSet inv p 0 ≠ inv := by
  refine ⟨?_, mapGet_mapSet_same inv p 0, ?_⟩
  · rw [ThreadSafeInventory.reserveStock, habs]
    simp
  · intro hcontra
    have := mapGet_mapSet_same inv p (0 : Rat)
    rw [hcontra, habs] at this
    exact Option.noConfusion this

/-- Witness for C10: the empty inventory and product PROD-9. -/
theorem ThreadSafeInventory.reserveStock_zero_on_absent_inserts_key_witness :
    ThreadSafeInventory.reserveStock [] "PROD-9" 0
      = Except.ok (true, mapSet [] "PROD-9" 0)
    ∧ mapGet (mapSet ([] : ThreadSafeInventory.Inv) "PROD-9" 0) "PROD-9"
      = some 0
    ∧ mapSet ([] : ThreadSafeInventory.Inv) "PROD-9" 0 ≠ [] :=
  ThreadSafeInventory.reserveStock_zero_on_absent_inserts_key [] "PROD-9" rfl

/-- C5 as stated is false: `Map.prototype.get` answers `undefined` for an
absent key, and `undefined` is itself a storable value, so the "not
found" result is not distinguishable from every stored value.  Concrete
input: the cache holding a ↦ undefined, queried at the absent key b. -/
theorem ThreadSafeCache.get_absent_collides_with_stored_undefined :
    ¬ ∀ (m : ThreadSafeCache.CacheMap) (k : String), mapGet m k = none →
        ∀ pv ∈ m, (ThreadSafeCache.get m k).1 ≠ pv.2 := by
  intro h
  exact h [("a", JSValue.undef)] "b" (by decide) ("a", JSValue.undef)
    (List.mem_singleton.mpr rfl) (by decide)

/-- C5 amended: `get` on an absent key returns `undefined`, and that
result is distinguishable from every stored value other than a stored
`undefined` itself. -/
theorem ThreadSafeCache.get_absent_returns_undefined
    (m : ThreadSafeCache.CacheMap) (k : String)
    (habs : mapGet m k = none) :
    (ThreadSafeCache.get m k).1 = JSValue.undef
    ∧ ∀ pv ∈ m, pv.2 ≠ JSValue.undef →
        (ThreadSafeCache.get m k).1 ≠ pv.2 := by
  have hres : (ThreadSafeCache.get m k).1 = JSValue.undef := by
    rw [ThreadSafeCache.get, habs]
    rfl
  refine ⟨hres, ?_⟩
  intro pv _ hne
  rw [hres]
  exact fun hh => hne hh.symm

/-- Witness for the amended C5: the cache holding a ↦ 1, queried at the
absent key b. -/
theorem ThreadSafeCache.get_absent_returns_undefined_witness :
    (ThreadSafeCache.get [("a", JSValue.num 1)] "b").1 = JSValue.undef
    ∧ ∀ pv ∈ [("a", JSValue.num 1)], pv.2 ≠ JSValue.undef →
        (ThreadSafeCache.get [("a", JSValue.num 1)] "b").1 ≠ pv.2 :=
  ThreadSafeCache.get_absent_returns_undefined [("a", JSValue.num 1)] "b"
    (by decide)

/-- C4: an error raised by the caller-supplied operation run through
`ThreadSafeOperation.execute` is rethrown with the very same error value
(not swallowed, not replaced), the mutex ends up released, and a
subsequent operation against the same store runs (it is not blocked) and
returns its own outcome.  Likewise a failing `reserveStock` propagates
its error, leaves the inventory unchanged, and a subsequent `getStock`
against the same store succeeds. -/
theorem ThreadSafeOperation.execute_rethrows_same_error_and_releases_lock
    (ε α β : Type) (e : ε) (op₂ : Except ε β)
    (inv : ThreadSafeInventory.Inv) (p : String) (q : Rat) :
    ThreadSafeOperation.execute false (Except.error e : Except ε α)
      = some (Except.error e, false)
    ∧ ThreadSafeOperation.execute false op₂ = some (op₂, false)
    ∧ (ThreadSafeInventory.stockOf inv p < q →
        ThreadSafeInventory.reserveStock inv p q
            = Except.error "Insufficient stock"
        ∧ ThreadSafeInventory.getStock
              (ThreadSafeInventory.applyOp inv
                (ThreadSafeInventory.InvOp.reserve p q)) p
            = (ThreadSafeInventory.stockOf inv p, inv)) := by
  refine ⟨rfl, ?_, ?_⟩
  · cases op₂ <;> rfl
  · intro h
    have he : ThreadSafeInventory.reserveStock inv p q
        = Except.error "Insufficient stock" := by
      rw [ThreadSafeInventory.reserveStock]
      rw [ThreadSafeInventory.stockOf] at h
      exact if_pos h
    have hstate : ThreadSafeInventory.applyOp inv
        (ThreadSafeInventory.InvOp.reserve p q) = inv := by
      simp only [ThreadSafeInventory.applyOp, he]
    rw [hstate]
    exact ⟨he, rfl⟩

namespace ThreadSafeCounter

/-- The number of `increment()` tasks whose critical section has run. -/
def finishedCount {n : Nat} (s : CounterSys n) : Nat :=
  (Finset.univ.filter fun t => s.tasks t = TaskState.finished).card

theorem counterStep_invariant {n : Nat} (s : CounterSys n) (t : Fin n)
    (h : s.counter = finishedCount s) :
    (counterStep s t).counter = finishedCount (counterStep s t) := by
  unfold counterStep
  cases hts : s.tasks t with
  | waiting =>
      by_cases hl : s.lockHeld = true
      · rw [if_pos hl]
        exact h
      · rw [if_neg hl]
        unfold finishedCount at h ⊢
        rw [h]
        norm_cast
        congr 1
        apply Finset.filter_congr
        intro x _
        by_cases hx : x = t
        · subst hx
          simp [Function.update_same, hts]
        · simp [Function.update_noteq hx]
  | admitted =>
      have hnot : t ∉ Finset.univ.filter
          fun x => s.tasks x = TaskState.finished := by
        simp [hts]
      have hins : (Finset.univ.filter fun x =>
            Function.update s.tasks t TaskState.finished x
              = TaskState.finished)
          = insert t (Finset.univ.filter
              fun x => s.tasks x = TaskState.finished) := by
        ext x
        by_cases hx : x = t
        · subst hx
          simp [Function.update_same]
        · simp [Function.update_noteq hx, hx]
      show (increment s.counter).2 = finishedCount _
      unfold finishedCount at h ⊢
      simp only [hins]
      rw [Finset.card_insert_of_not_mem hnot]
      rw [show (increment s.counter).2 = s.counter + 1 from rfl, h]
      push_cast
      ring
  | finished => simpa using h

theorem counterRun_invariant {n : Nat} (sched : List (Fin n))
    (s : CounterSys n) (h : s.counter = finishedCount s) :
    (counterRun s sched).counter = finishedCount (counterRun s sched) := by
  induction sched generalizing s with
  | nil => exact h
  | cons t rest ih => exact ih (counterStep s t) (counterStep_invariant s t h)

/-- C1: for every number n of concurrently issued `increment()` calls
against a fresh `ThreadSafeCounter` and every schedule (interleaving of
mutex grants and critical sections) under which all n calls complete, the
final counter value is exactly n. -/
theorem increment_all_complete_gives_n (n : Nat)
    (sched : List (Fin n))
    (hdone : ∀ t, (counterRun (counterInit n) sched).tasks t
      = TaskState.finished) :
    (counterRun (counterInit n) sched).counter = n := by
  have h0 : (counterInit n).counter = finishedCount (counterInit n) := by
    unfold counterInit finishedCount
    simp
  rw [counterRun_invariant sched (counterInit n) h0]
  unfold finishedCount
  have huniv : (Finset.univ.filter fun t =>
        (counterRun (counterInit n) sched).tasks t = TaskState.finished)
      = Finset.univ := by
    apply Finset.eq_univ_iff_forall.mpr
    intro t
    simp [hdone t]
  rw [huniv, Finset.card_univ, Fintype.card_fin]

/-- Witness for C1: two tasks, scheduled task 0 acquire, task 0 run,
task 1 acquire, task 1 run; both complete and the counter ends at 2. -/
theorem increment_all_complete_gives_n_witness :
    (∀ t, (counterRun (counterInit 2) [0, 0, 1, 1]).tasks t
      = TaskState.finished)
    ∧ (counterRun (counterInit 2) [0, 0, 1, 1]).counter = (2 : Nat) :=
  ⟨by decide, ThreadSafeCounter.increment_all_complete_gives_n 2 [0, 0, 1, 1]
    (by decide)⟩

end ThreadSafeCounter

namespace ThreadSafeInventory

theorem applyOp_nonneg (inv : Inv) (op : InvOp)
    (hinv : ∀ pv ∈ inv, 0 ≤ pv.2) (hop : initStockNonneg op = true) :
    ∀ pv ∈ applyOp inv op, 0 ≤ pv.2 := by
  cases op with
  | init p s =>
      intro pv hpv
      have hs : (0 : Rat) ≤ s := by
        simpa [initStockNonneg] using hop
      simp only [applyOp, initializeProduct] at hpv
      rcases mem_mapSet inv p s pv hpv with h | h
      · rw [h]
        exact hs
      · exact hinv pv h
  | reserve p q =>
      intro pv hpv
      by_cases hlt : (mapGet inv p).getD 0 < q
      · have hst : applyOp inv (InvOp.reserve p q) = inv := by
          simp only [applyOp, reserveStock, if_pos hlt]
        rw [hst] at hpv
        exact hinv pv hpv
      · have hst : applyOp inv (InvOp.reserve p q)
            = mapSet inv p ((mapGet inv p).getD 0 - q) := by
          simp only [applyOp, reserveStock, if_neg hlt]
        rw [hst] at hpv
        rcases mem_mapSet inv p ((mapGet inv p).getD 0 - q) pv hpv with h | h
        · rw [h]
          have := not_lt.mp hlt
          simp only
          linarith
        · exact hinv pv h
  | query p =>
      intro pv hpv
      simp only [applyOp, getStock] at hpv
      exact hinv pv hpv

theorem applyOps_nonneg (ops : List InvOp) (inv : Inv)
    (hinv : ∀ pv ∈ inv, 0 ≤ pv.2)
    (hops : ∀ op ∈ ops, initStockNonneg op = true) :
    ∀ pv ∈ applyOps inv ops, 0 ≤ pv.2 := by
  induction ops generalizing inv with
  | nil => exact hinv
  | cons op rest ih =>
      exact ih (applyOp inv op)
        (applyOp_nonneg inv op hinv (hops op (List.mem_cons_self op rest)))
        (fun o ho => hops o (List.mem_cons.mpr (Or.inr ho)))

theorem reserveSeq_accounting (qs : List Rat) (inv : Inv) (p : String) :
    stockOf (reserveSeq inv p qs).1 p
      = stockOf inv p - (reserveSeq inv p qs).2 := by
  induction qs generalizing inv with
  | nil => simp [reserveSeq]
  | cons q rest ih =>
      by_cases hlt : (mapGet inv p).getD 0 < q
      · have he : reserveStock inv p q = Except.error "Insufficient stock" := by
          rw [reserveStock]
          exact if_pos hlt
        simp only [reserveSeq, he]
        exact ih inv
      · have hok : reserveStock inv p q
            = Except.ok (true, mapSet inv p ((mapGet inv p).getD 0 - q)) := by
          rw [reserveStock]
          exact if_neg hlt
        simp only [reserveSeq, hok]
        rw [ih (mapSet inv p ((mapGet inv p).getD 0 - q))]
        have hmid : stockOf (mapSet inv p ((mapGet inv p).getD 0 - q)) p
            = (mapGet inv p).getD 0 - q := by
          rw [stockOf, mapGet_mapSet_same]
          rfl
        rw [hmid, stockOf]
        ring

end ThreadSafeInventory

/-- C3: starting from an inventory whose stocks are all nonnegative,
every serialized sequence of `initializeProduct` (with nonnegative
initial stock), `reserveStock` and `getStock` calls keeps every stored
stock nonnegative; a reservation that would drive the stock negative
fails with the insufficient-stock error; and a sequence of reservations
on one product ends with that product's stock equal to its initial stock
minus the sum of the successfully reserved quantities. -/
theorem ThreadSafeInventory.nonneg_invariant_and_reservation_accounting
    (inv : ThreadSafeInventory.Inv) (ops : List ThreadSafeInventory.InvOp)
    (p : String) (qs : List Rat)
    (hinv : ∀ pv ∈ inv, 0 ≤ pv.2)
    (hops : ∀ op ∈ ops, ThreadSafeInventory.initStockNonneg op = true) :
    (∀ pv ∈ ThreadSafeInventory.applyOps inv ops, 0 ≤ pv.2)
    ∧ (∀ q : Rat, ThreadSafeInventory.stockOf inv p < q →
        ThreadSafeInventory.reserveStock inv p q
          = Except.error "Insufficient stock")
    ∧ ThreadSafeInventory.stockOf
          (ThreadSafeInventory.reserveSeq inv p qs).1 p
        = ThreadSafeInventory.stockOf inv p
            - (ThreadSafeInventory.reserveSeq inv p qs).2 := by
  refine ⟨ThreadSafeInventory.applyOps_nonneg ops inv hinv hops, ?_,
    ThreadSafeInventory.reserveSeq_accounting qs inv p⟩
  intro q hq
  rw [ThreadSafeInventory.reserveStock]
  rw [ThreadSafeInventory.stockOf] at hq
  exact if_pos hq

/-- Witness for C3: inventory PROD-1 ↦ 5; initialize A at 2, reserve 7 of
PROD-1 (fails), query A; then reservations of 2, 9, 1 on PROD-1. -/
theorem ThreadSafeInventory.nonneg_invariant_accounting_witness :
    (∀ pv ∈ ThreadSafeInventory.applyOps [("PROD-1", (5 : Rat))]
        [ThreadSafeInventory.InvOp.init "A" 2,
         ThreadSafeInventory.InvOp.reserve "PROD-1" 7,
         ThreadSafeInventory.InvOp.query "A"], 0 ≤ pv.2)
    ∧ (∀ q : Rat,
        ThreadSafeInventory.stockOf [("PROD-1", (5 : Rat))] "PROD-1" < q →
        ThreadSafeInventory.reserveStock [("PROD-1", (5 : Rat))] "PROD-1" q
          = Except.error "Insufficient stock")
    ∧ ThreadSafeInventory.stockOf
          (ThreadSafeInventory.reserveSeq [("PROD-1", (5 : Rat))] "PROD-1"
            [2, 9, 1]).1 "PROD-1"
        = ThreadSafeInventory.stockOf [("PROD-1", (5 : Rat))] "PROD-1"
            - (ThreadSafeInventory.reserveSeq [("PROD-1", (5 : Rat))] "PROD-1"
                [2, 9, 1]).2 :=
  ThreadSafeInventory.nonneg_invariant_and_reservation_accounting
    [("PROD-1", (5 : Rat))]
    [ThreadSafeInventory.InvOp.init "A" 2,
     ThreadSafeInventory.InvOp.reserve "PROD-1" 7,
     ThreadSafeInventory.InvOp.query "A"]
    "PROD-1" [2, 9, 1] (by decide) (by decide)
